import Mathlib

/-!
Verification of the sync/reconciliation engine of the Calendar repository
(src/src/gcal_cli.py) against its natural-language specification.

The Python source is shallowly embedded: pure helpers become Lean functions,
the SQLite tables become lists of rows, the Google Calendar service becomes an
explicit functional state (calendars holding events; created events echo the
payload strings back on a later list call), and exceptions become sum types.
String operations (lower, strip, split, substring search) are implemented over
character lists so that every definition is executable by the kernel.
Wall-clock effects (time.sleep, last_sync timestamps, log files) carry no
information relevant to the claims and are not part of the state; sleeps of
the retry loop are recorded as data so backoff claims can be stated.
-/

/-! ### Character/string helpers (ASCII models of the Python builtins used) -/

/-- Model of Python str.lower for the ASCII range (sufficient: all keyword
constants in the source are ASCII). -/
def lowerChar (c : Char) : Char :=
  if 65 ≤ c.toNat ∧ c.toNat ≤ 90 then Char.ofNat (c.toNat + 32) else c

def pyLower (s : String) : String := String.mk (s.toList.map lowerChar)

def isSpaceChar (c : Char) : Bool := c = ' ' ∨ c = '\t' ∨ c = '\n' ∨ c = '\r'

/-- Model of Python str.strip (default whitespace). -/
def pyStrip (s : String) : String :=
  String.mk (((s.toList.dropWhile isSpaceChar).reverse.dropWhile isSpaceChar).reverse)

/-- Does the needle occur as a prefix of the haystack? -/
def isPrefixChars : List Char → List Char → Bool
  | [], _ => true
  | _ :: _, [] => false
  | c :: cs, h :: hs => c = h && isPrefixChars cs hs

/-- Characters of the haystack strictly before the first occurrence of the
needle, or none when the needle does not occur.  Models Python
needle-in-string and str.split(needle, 1)[0] at once. -/
def splitFirst : List Char → List Char → Option (List Char)
  | hay, needle =>
    if isPrefixChars needle hay then some []
    else match hay with
      | [] => none
      | c :: rest => (splitFirst rest needle).map (c :: ·)

/-- Model of Python substring containment (needle in hay). -/
def containsSub (hay needle : String) : Bool :=
  (splitFirst hay.toList needle.toList).isSome

/-- Digits-only string to Nat; none on empty or non-digit input.
Models the digit matching performed by datetime.strptime fields. -/
def digitsToNat? (l : List Char) : Option Nat :=
  match l with
  | [] => none
  | _ =>
    if l.all (fun c => c.isDigit) then
      some (l.foldl (fun acc c => acc * 10 + (c.toNat - 48)) 0)
    else none

/-- Split a character list on a single separator character. -/
def splitOnChar (sep : Char) : List Char → List (List Char)
  | [] => [[]]
  | c :: rest =>
    let r := splitOnChar sep rest
    if c = sep then [] :: r
    else match r with
      | [] => [[c]]
      | h :: t => (c :: h) :: t

/-! ### Dates and times (the subset of datetime the source manipulates) -/

structure Date where
  year : Nat
  month : Nat
  day : Nat
deriving DecidableEq, Repr

structure DateTime where
  date : Date
  hour : Nat
  minute : Nat
deriving DecidableEq, Repr

def isLeap (y : Nat) : Bool := (y % 4 = 0 && y % 100 ≠ 0) || y % 400 = 0

def daysInMonth (y m : Nat) : Nat :=
  if m = 2 then (if isLeap y then 29 else 28)
  else if m = 4 ∨ m = 6 ∨ m = 9 ∨ m = 11 then 30
  else 31

/-- datetime.strptime(s, percent-m/percent-d/percent-Y): US date with real
calendar validation. -/
def parseDateUS (s : String) : Option Date :=
  match splitOnChar '/' s.toList with
  | [ms, ds, ys] =>
    match digitsToNat? ms, digitsToNat? ds, digitsToNat? ys with
    | some m, some d, some y =>
      if 1 ≤ m ∧ m ≤ 12 ∧ 1 ≤ d ∧ d ≤ daysInMonth y m then some ⟨y, m, d⟩ else none
    | _, _, _ => none
  | _ => none

/-- strptime percent-I:percent-M percent-p: 12-hour clock time, converted to
24-hour hour/minute.  The AM/PM marker is matched case-insensitively, as
strptime does. -/
def parseTime12 (s : String) : Option (Nat × Nat) :=
  match splitOnChar ' ' s.toList with
  | [hm, ap] =>
    match splitOnChar ':' hm with
    | [hs, ms] =>
      match digitsToNat? hs, digitsToNat? ms with
      | some h, some m =>
        let apl := (String.mk ap |> pyLower)
        if (apl = "am" ∨ apl = "pm") ∧ 1 ≤ h ∧ h ≤ 12 ∧ m ≤ 59 then
          some ((if apl = "pm" then (if h = 12 then 12 else h + 12)
                 else (if h = 12 then 0 else h)), m)
        else none
      | _, _ => none
    | _ => none
  | _ => none

def pad2 (n : Nat) : String := if n < 10 then "0" ++ toString n else toString n

def pad4 (n : Nat) : String :=
  if n < 10 then "000" ++ toString n
  else if n < 100 then "00" ++ toString n
  else if n < 1000 then "0" ++ toString n
  else toString n

/-- date.isoformat() -/
def Date.iso (d : Date) : String := pad4 d.year ++ "-" ++ pad2 d.month ++ "-" ++ pad2 d.day

/-- datetime.isoformat() (seconds are always zero for strptime-parsed rows). -/
def DateTime.iso (t : DateTime) : String :=
  t.date.iso ++ "T" ++ pad2 t.hour ++ ":" ++ pad2 t.minute ++ ":00"

/-- Order-embedding key for chronological comparison.  Radices 13/32/25/61
strictly exceed the ranges month ≤ 12, day ≤ 31, hour ≤ 23, minute ≤ 59 of
every parsed value, so key-order coincides with Python datetime order. -/
def DateTime.key (t : DateTime) : Nat :=
  (((t.date.year * 13 + t.date.month) * 32 + t.date.day) * 25 + t.hour) * 61 + t.minute

/-- Python < on datetimes. -/
def dtLt (a b : DateTime) : Bool := decide (a.key < b.key)

/-! ### CSV rows and parse_dt (gcal_cli.py lines 176-192) -/

/-- One csv.DictReader row, restricted to the columns the engine reads.
A CSV without some column yields the empty string via row.get(col, ''). -/
structure Row where
  subject : String
  startDate : String
  startTime : String
  endDate : String
  endTime : String
  allDay : String
  description : String
deriving DecidableEq, Repr

/-- Successful result of parse_dt: either a pair of dates (all-day) or a pair
of datetimes (timed). -/
inductive Parsed where
  | allday (sd ed : Date)
  | timed (s e : DateTime)
deriving DecidableEq, Repr

def isAllDayFlag (s : String) : Bool :=
  let t := pyLower (pyStrip s)
  t = "true" ∨ t = "1" ∨ t = "yes"

/-- parse_dt: the except-all branch returning (None, None, False) is the none
case; callers test it via if not s. -/
def parse_dt (r : Row) : Option Parsed :=
  if isAllDayFlag r.allDay then
    match parseDateUS r.startDate, parseDateUS r.endDate with
    | some sd, some ed => some (.allday sd ed)
    | _, _ => none
  else
    match parseDateUS r.startDate, parseTime12 r.startTime,
          parseDateUS r.endDate, parseTime12 r.endTime with
    | some sd, some st, some ed, some et =>
      some (.timed ⟨sd, st.1, st.2⟩ ⟨ed, et.1, et.2⟩)
    | _, _, _, _ => none

/-- course_from_subject (lines 176-180). -/
def course_from_subject (subj : String) : String :=
  if subj = "" then "Unknown"
  else match splitFirst subj.toList " — Sec".toList with
    | some pre => pyStrip (String.mk pre)
    | none =>
      match splitFirst subj.toList " — ".toList with
      | some pre => pyStrip (String.mk pre)
      | none => pyStrip subj

/-- The set of category keys cmd_sync derives from the CSV
(desired = set of course_from_subject over all rows, lines 838-841);
list-with-dedup models the Python set. -/
def syncDesired (rows : List Row) : List String :=
  (rows.map (fun r => course_from_subject r.subject)).dedup

-- quick sanity examples (erased facts, kept as compile-time checks)
example : course_from_subject "" = "Unknown" := by decide
example : course_from_subject "Math — Sec6 S14" = "Math" := by decide
example : parseDateUS "01/05/2025" = some ⟨2025, 1, 5⟩ := by decide
example : parseDateUS "13/05/2025" = none := by decide
example : parseTime12 "8:30 AM" = some (8, 30) := by decide
example : parseTime12 "12:15 pm" = some (12, 15) := by decide
example : (⟨⟨2025,1,5⟩,8,30⟩ : DateTime).iso = "2025-01-05T08:30:00" := by decide

/-! ### Retry/Backoff Executor: call_with_retry (gcal_cli.py lines 216-229)

The wrapped zero-argument operation is modelled as a function from the
1-based attempt number to its outcome on that attempt.  A Python exception is
either an HttpError (the only class the except clause catches) or any other
exception; both carry str(e).  The executor's observable behaviour is the
final outcome, the number of invocations of the operation, and the sequence
of back-off sleeps, recorded in order. -/

inductive PyErr where
  | http (msg : String)
  | other (msg : String)
deriving DecidableEq, Repr

/-- The quota test of line 223: substring match on the lowered message. -/
def isQuotaMsg (msg : String) : Bool :=
  containsSub (pyLower msg) "quota" || containsSub (pyLower msg) "limits exceeded"

/-- An exception is retried iff it is an HttpError whose message matches the
quota test; any other exception escapes the loop (non-HttpError is not
caught at all, a non-matching HttpError is re-raised). -/
def isQuotaErr : PyErr → Bool
  | .http m => isQuotaMsg m
  | .other _ => false

inductive RetryOutcome (α : Type) where
  | ok (a : α)
  | raised (e : PyErr)
  | exhausted (label : String) (maxTries : Nat)
deriving DecidableEq, Repr

structure RetryTrace (α : Type) where
  outcome : RetryOutcome α
  calls : Nat
  sleeps : List Nat
deriving DecidableEq, Repr

/-- The for-loop of call_with_retry.  fuel = remaining attempts,
attempt = current 1-based attempt index, delay = current back-off delay.
When the fuel runs out the loop falls through to
raise RuntimeError(f"Failed ... after {max_tries} retries"). -/
def retryAux {α : Type} (fn : Nat → Except PyErr α) (label : String)
    (maxTries : Nat) : Nat → Nat → Nat → RetryTrace α
  | 0, _, _ => ⟨.exhausted label maxTries, 0, []⟩
  | fuel + 1, attempt, delay =>
    match fn attempt with
    | .ok a => ⟨.ok a, 1, []⟩
    | .error e =>
      if isQuotaErr e then
        let rest := retryAux fn label maxTries fuel (attempt + 1) (min (delay * 2) 300)
        ⟨rest.outcome, rest.calls + 1, delay :: rest.sleeps⟩
      else ⟨.raised e, 1, []⟩

def call_with_retry {α : Type} (label : String) (fn : Nat → Except PyErr α)
    (max_tries base_delay : Nat) : RetryTrace α :=
  retryAux fn label max_tries max_tries 1 base_delay

/-- The Python signature defaults: max_tries=5, base_delay=10. -/
def call_with_retry_default {α : Type} (label : String) (fn : Nat → Except PyErr α) :
    RetryTrace α :=
  call_with_retry label fn 5 10

/-- Does this attempt outcome take the quota-retry branch? -/
def quotaFail {α : Type} : Except PyErr α → Bool
  | .error e => isQuotaErr e
  | .ok _ => false

/-- Delay sequence produced by sleeping the current delay then doubling it,
capped at 300 (line 226). -/
def delaySeq : Nat → Nat → List Nat
  | _, 0 => []
  | d, n + 1 => d :: delaySeq (min (d * 2) 300) n

theorem retryAux_exhaust {α : Type} (fn : Nat → Except PyErr α) (label : String)
    (maxTries : Nat) :
    ∀ fuel attempt delay, (∀ k, attempt ≤ k → k < attempt + fuel → quotaFail (fn k) = true) →
      retryAux fn label maxTries fuel attempt delay =
        ⟨.exhausted label maxTries, fuel, delaySeq delay fuel⟩ := by
  intro fuel
  induction fuel with
  | zero => intro attempt delay _; rfl
  | succ n ih =>
    intro attempt delay h
    have hq : quotaFail (fn attempt) = true := h attempt le_rfl (by omega)
    unfold retryAux
    cases hfn : fn attempt with
    | ok a => rw [hfn] at hq; simp [quotaFail] at hq
    | error e =>
      rw [hfn] at hq
      simp only [quotaFail] at hq
      simp only [hq, if_true]
      rw [ih (attempt + 1) (min (delay * 2) 300) (fun k h1 h2 => h k (by omega) (by omega))]
      rfl

theorem retryAux_success {α : Type} (fn : Nat → Except PyErr α) (label : String)
    (maxTries : Nat) (a : α) :
    ∀ n fuel attempt delay, n < fuel →
      (∀ k, attempt ≤ k → k < attempt + n → quotaFail (fn k) = true) →
      fn (attempt + n) = .ok a →
      retryAux fn label maxTries fuel attempt delay =
        ⟨.ok a, n + 1, delaySeq delay n⟩ := by
  intro n
  induction n with
  | zero =>
    intro fuel attempt delay hlt _ hok
    obtain ⟨m, rfl⟩ : ∃ m, fuel = m + 1 := ⟨fuel - 1, by omega⟩
    unfold retryAux
    rw [show attempt + 0 = attempt from rfl] at hok
    rw [hok]
    rfl
  | succ n ih =>
    intro fuel attempt delay hlt hq hok
    obtain ⟨m, rfl⟩ : ∃ m, fuel = m + 1 := ⟨fuel - 1, by omega⟩
    have hq0 : quotaFail (fn attempt) = true := hq attempt le_rfl (by omega)
    unfold retryAux
    cases hfn : fn attempt with
    | ok b => rw [hfn] at hq0; simp [quotaFail] at hq0
    | error e =>
      rw [hfn] at hq0
      simp only [quotaFail] at hq0
      simp only [hq0, if_true]
      rw [ih m (attempt + 1) (min (delay * 2) 300) (by omega)
        (fun k h1 h2 => hq k (by omega) (by omega))
        (by rw [show attempt + 1 + n = attempt + (n + 1) from by omega]; exact hok)]
      rfl

/-- Claim C3: after max_tries consecutive quota-exceeded failures,
call_with_retry raises its own RuntimeError (the SyncExhausted error) which
carries the label and is a different error value from any propagated remote
error, and the operation was invoked exactly max_tries times; the default
maximum is 5 attempts. -/
theorem retry_exhaustion {α : Type} (label : String) (fn : Nat → Except PyErr α)
    (maxTries baseDelay : Nat)
    (h : ∀ k, 1 ≤ k → k ≤ maxTries → quotaFail (fn k) = true) :
    (call_with_retry label fn maxTries baseDelay).outcome =
        RetryOutcome.exhausted label maxTries
    ∧ (call_with_retry label fn maxTries baseDelay).calls = maxTries
    ∧ (∀ e, (RetryOutcome.exhausted label maxTries : RetryOutcome α) ≠ .raised e)
    ∧ call_with_retry_default label fn = call_with_retry label fn 5 10 := by
  have := retryAux_exhaust fn label maxTries maxTries 1 baseDelay
    (fun k h1 h2 => h k h1 (by omega))
  unfold call_with_retry
  rw [this]
  exact ⟨rfl, rfl, fun e hne => RetryOutcome.noConfusion hne, rfl⟩

def quotaHttpConst : Nat → Except PyErr Nat := fun _ => .error (.http "Quota Exceeded")

theorem retry_exhaustion_witness :
    (call_with_retry "insert" quotaHttpConst 5 10).outcome =
        RetryOutcome.exhausted "insert" 5
    ∧ (call_with_retry "insert" quotaHttpConst 5 10).calls = 5
    ∧ (∀ e, (RetryOutcome.exhausted "insert" 5 : RetryOutcome Nat) ≠ .raised e)
    ∧ call_with_retry_default "insert" quotaHttpConst =
        call_with_retry "insert" quotaHttpConst 5 10 :=
  retry_exhaustion "insert" quotaHttpConst 5 10 (fun _ _ _ => rfl)

theorem delaySeq_get (base : Nat) :
    ∀ n j i, i < n →
      (delaySeq (min (base * 2 ^ j) 300) n).get? i = some (min (base * 2 ^ (j + i)) 300) := by
  intro n
  induction n with
  | zero => intro j i h; omega
  | succ m ih =>
    intro j i h
    cases i with
    | zero => rfl
    | succ i' =>
      have hpow : base * 2 ^ (j + 1) = base * 2 ^ j * 2 := by
        rw [pow_succ, Nat.mul_assoc]
      have hstep : min (min (base * 2 ^ j) 300 * 2) 300 = min (base * 2 ^ (j + 1)) 300 := by
        by_cases hb : base * 2 ^ j ≤ 300
        · rw [Nat.min_eq_left hb, hpow]
        · rw [Nat.min_eq_right (by omega : (300 : Nat) ≤ base * 2 ^ j)]
          rw [Nat.min_eq_right (by omega : (300 : Nat) ≤ 300 * 2)]
          rw [Nat.min_eq_right (by omega : (300 : Nat) ≤ base * 2 ^ (j + 1))]
      show (delaySeq (min (min (base * 2 ^ j) 300 * 2) 300) m).get? i' = _
      rw [hstep, ih (j + 1) i' (by omega)]
      rw [show j + 1 + i' = j + (i' + 1) from by omega]

/-- The claim of C4 read literally is false: when the configured base delay
exceeds the 300-second ceiling, the first sleep is the raw base delay, not
min(base * 2^0, 300).  Concretely, with base_delay = 400 and a single
quota-exceeded response followed by success, the loop sleeps 400 seconds,
while the formula demands 300. -/
def fnOneQuota : Nat → Except PyErr Nat :=
  fun j => if j = 1 then .error (.http "quota") else .ok 0

theorem backoff_formula_counterexample :
    call_with_retry "insert" fnOneQuota 5 400 =
      ⟨.ok 0, 2, [400]⟩
    ∧ (400 : Nat) ≠ min (400 * 2 ^ (1 - 1)) 300 :=
  ⟨by decide, by decide⟩

/-- Claim C4 (amended): for N consecutive quota-exceeded responses followed by
success, with N below the attempt limit, and provided the base delay does not
exceed the 300-second ceiling (true of the default base 10), the k-th retry
delay slept equals min(base * 2^(k-1), 300). -/
theorem backoff_delay_formula {α : Type} (label : String) (fn : Nat → Except PyErr α)
    (maxTries base n k : Nat) (a : α)
    (hbase : base ≤ 300)
    (hn : n < maxTries)
    (hq : ∀ j, 1 ≤ j → j ≤ n → quotaFail (fn j) = true)
    (hok : fn (n + 1) = .ok a)
    (hk1 : 1 ≤ k) (hkn : k ≤ n) :
    (call_with_retry label fn maxTries base).sleeps.get? (k - 1) =
      some (min (base * 2 ^ (k - 1)) 300) := by
  have hrun := retryAux_success fn label maxTries a n maxTries 1 base hn
    (fun j h1 h2 => hq j h1 (by omega))
    (by rw [show 1 + n = n + 1 from by omega]; exact hok)
  unfold call_with_retry
  rw [hrun]
  show (delaySeq base n).get? (k - 1) = _
  have hget := delaySeq_get base n 0 (k - 1) (by omega)
  rw [pow_zero, Nat.mul_one, Nat.min_eq_left hbase, Nat.zero_add] at hget
  exact hget

def fnTwoQuota : Nat → Except PyErr Nat :=
  fun j => if j ≤ 2 then .error (.http "Calendar usage limits exceeded") else .ok 7

theorem backoff_delay_formula_witness :
    (call_with_retry "insert" fnTwoQuota 5 10).sleeps.get? (2 - 1) =
      some (min (10 * 2 ^ (2 - 1)) 300) :=
  backoff_delay_formula "insert" fnTwoQuota 5 10 2 2 7 (by omega) (by omega)
    (fun j h1 h2 => by
      have : j = 1 ∨ j = 2 := by omega
      cases this with
      | inl h => subst h; rfl
      | inr h => subst h; rfl)
    rfl (by omega) (by omega)

/-- The claim of C5 read literally is false: the except clause catches only
HttpError, so a non-HttpError exception whose message contains "quota" is
propagated immediately instead of being retried.  Concretely a generic
exception with message "quota exceeded" escapes after a single call, with no
back-off sleep. -/
def otherQuota : Nat → Except PyErr Nat := fun _ => .error (.other "quota exceeded")

theorem retry_classification_counterexample :
    isQuotaMsg "quota exceeded" = true
    ∧ call_with_retry "insert" otherQuota 5 10 =
        ⟨.raised (.other "quota exceeded"), 1, []⟩ :=
  ⟨by decide, by decide⟩

theorem retryAux_calls_pos {α : Type} (fn : Nat → Except PyErr α) (label : String)
    (maxTries fuel attempt delay : Nat) (h : 1 ≤ fuel) :
    1 ≤ (retryAux fn label maxTries fuel attempt delay).calls := by
  obtain ⟨m, rfl⟩ : ∃ m, fuel = m + 1 := ⟨fuel - 1, by omega⟩
  unfold retryAux
  cases fn attempt with
  | ok a => exact Nat.le_refl 1
  | error e =>
    by_cases hq : isQuotaErr e = true
    · simp only [hq, if_true]
      exact Nat.le_add_left 1 _
    · simp only [hq, if_false]
      exact Nat.le_refl 1

/-- Claim C5 (amended): call_with_retry classifies only HttpError failures:
an HttpError whose message contains "quota" or "limits exceeded"
(case-insensitively) is retried with a back-off sleep of the current delay,
while a non-matching HttpError and every non-HttpError exception — even one
whose message mentions quota — is propagated immediately after a single
call, with no sleep. -/
theorem retry_classification {α : Type} (label : String) (fn : Nat → Except PyErr α)
    (maxTries base : Nat) (e : PyErr)
    (hfn : fn 1 = .error e) (hmt : 1 ≤ maxTries) :
    (isQuotaErr e = false →
      call_with_retry label fn maxTries base = ⟨.raised e, 1, []⟩)
    ∧ (isQuotaErr e = true → 2 ≤ maxTries →
      2 ≤ (call_with_retry label fn maxTries base).calls
      ∧ (call_with_retry label fn maxTries base).sleeps.head? = some base) := by
  obtain ⟨m, rfl⟩ : ∃ m, maxTries = m + 1 := ⟨maxTries - 1, by omega⟩
  constructor
  · intro hq
    unfold call_with_retry retryAux
    rw [hfn]
    simp only [hq, Bool.false_eq_true, if_false]
  · intro hq hmt2
    unfold call_with_retry retryAux
    rw [hfn]
    simp only [hq, if_true]
    constructor
    · have := retryAux_calls_pos fn label (m + 1) m 2 (min (base * 2) 300) (by omega)
      simpa using Nat.add_le_add this (Nat.le_refl 1)
    · rfl

def fnHttpQuota : Nat → Except PyErr Nat := fun _ => .error (.http "Rate Limits Exceeded")

theorem retry_classification_witness :
    2 ≤ (call_with_retry "insert" fnHttpQuota 5 10).calls
    ∧ (call_with_retry "insert" fnHttpQuota 5 10).sleeps.head? = some 10 :=
  (retry_classification "insert" fnHttpQuota 5 10 (.http "Rate Limits Exceeded")
    rfl (by omega)).2 (by decide) (by omega)

/-! ### The expected-event loop of sync_course_with_db (lines 371-391)

The loop walks the category's CSV rows, skips rows whose dates fail to
parse (if not s: continue — with no output statement of any kind on that
path), collects (subject, start-iso, end-iso, row, all_day) tuples, and
tracks the chronological min start / max end over the rows that parsed to
datetimes (the isinstance(s, datetime) guard excludes all-day rows, whose
parse result is a date).  The state also carries the warnings the loop
emits, which is none. -/

structure ExpEntry where
  subj : String
  startSig : String
  endSig : String
  row : Row
  allDay : Bool
deriving DecidableEq, Repr

def sigOf (x : ExpEntry) : String × String × String := (x.subj, x.startSig, x.endSig)

structure BuildSt where
  expected : List ExpEntry
  minDt : Option DateTime
  maxDt : Option DateTime
  warnings : List String
deriving DecidableEq, Repr

def buildStep (st : BuildSt) (r : Row) : BuildSt :=
  match parse_dt r with
  | none => st
  | some (.allday sd ed) =>
    { st with expected := st.expected ++ [⟨r.subject, sd.iso, ed.iso, r, true⟩] }
  | some (.timed s e) =>
    { st with
      expected := st.expected ++ [⟨r.subject, s.iso, e.iso, r, false⟩],
      minDt := some (match st.minDt with
        | none => s
        | some m => if dtLt s m then s else m),
      maxDt := some (match st.maxDt with
        | none => e
        | some m => if dtLt m e then e else m) }

def buildExpected (rows : List Row) : BuildSt :=
  rows.foldl buildStep ⟨[], none, none, []⟩

/-- The events().list time window of the refresh step (lines 400-409):
either the CSV min/max span or the fallback now .. now+180d.  The rendering
of the bounds to RFC3339 strings (timezone attach + isoformat) is absorbed
into the abstract window value; the remote service's interpretation of the
window is a parameter of the sync model. -/
inductive Window where
  | span (mn mx : DateTime)
  | fallback
deriving DecidableEq, Repr

def windowOfB (b : BuildSt) : Window :=
  match b.minDt, b.maxDt with
  | some mn, some mx => .span mn mx
  | _, _ => .fallback

def windowOf (rows : List Row) : Window := windowOfB (buildExpected rows)

/-- The timed (non-all-day) rows that parse, as (start, end) datetime pairs:
exactly the rows that participate in the min/max span. -/
def timedPairs (rows : List Row) : List (DateTime × DateTime) :=
  rows.filterMap (fun r =>
    match parse_dt r with
    | some (.timed s e) => some (s, e)
    | _ => none)

/-! ### Claim C9: unparseable rows are skipped and excluded downstream -/

/-- A row whose dates fail to parse contributes nothing to any state the
loop computes: deleting it from the input leaves the loop result —
expected entries, span, and emitted warnings — unchanged. -/
theorem buildStep_skip (st : BuildSt) (r : Row) (h : parse_dt r = none) :
    buildStep st r = st := by
  unfold buildStep
  rw [h]

theorem buildExpected_skip (rows1 rows2 : List Row) (r : Row)
    (h : parse_dt r = none) :
    buildExpected (rows1 ++ r :: rows2) = buildExpected (rows1 ++ rows2) := by
  unfold buildExpected
  rw [List.foldl_append, List.foldl_append, List.foldl_cons, buildStep_skip _ r h]

/-- The C9 claim read literally is false on one point: the skip is silent.
parse_dt swallows the parse error (bare except) and the loop's continue has
no warn/err/log call, so a bad row produces an empty expected list and an
empty warning list — nothing is reported. -/
def badDateRow : Row :=
  ⟨"Math — Sec6 S14", "13/45/2025", "8:30 AM", "13/45/2025", "10:30 AM", "", "d"⟩

theorem parse_skip_counterexample :
    parse_dt badDateRow = none
    ∧ buildExpected [badDateRow] = ⟨[], none, none, []⟩ :=
  ⟨by decide, by decide⟩

/-! ### Local State Store (ensure_db, lines 235-267; helpers lines 289-345)

The two SQLAlchemy tables become lists of rows.  The uq_event_sig
UniqueConstraint on (calendar_id, summary, start, end) is enforced by
db_record_event: the duplicate insert raises IntegrityError, which the
source catches and converts to a False return with the table unchanged.
The autoincrement id and last_sync timestamp columns carry no
claim-relevant information and are omitted. -/

abbrev Sig := String × String × String

structure EventRow where
  calendar_summary : String
  calendar_id : String
  event_id : Option String
  summary : String
  evStart : String
  evEnd : String
deriving DecidableEq, Repr

structure CalRow where
  summary : String
  gcal_id : String
  expected_count : Nat
  synced_count : Nat
  complete : Bool
deriving DecidableEq, Repr

structure DB where
  calendars : List CalRow
  events : List EventRow
deriving DecidableEq, Repr

/-- db_record_event (lines 289-305): insert unless the unique signature
(calendar_id, summary, start, end) already exists; a duplicate is a benign
no-op returning False. -/
def db_record_event (db : DB) (cal_sum cal_id : String) (ev_id : Option String)
    (su st en : String) : DB × Bool :=
  if db.events.any (fun row =>
      decide (row.calendar_id = cal_id ∧ row.summary = su ∧
              row.evStart = st ∧ row.evEnd = en)) then
    (db, false)
  else
    ({ db with events := db.events ++ [⟨cal_sum, cal_id, ev_id, su, st, en⟩] }, true)

/-- db_existing_sigs (lines 312-318): the set of signatures stored for a
calendar id; dedup models the Python set constructor. -/
def db_existing_sigs (db : DB) (cal_id : String) : List Sig :=
  ((db.events.filter (fun r => decide (r.calendar_id = cal_id))).map
    (fun r => (r.summary, r.evStart, r.evEnd))).dedup

/-- upsert_calendar (lines 320-345): update every row with this summary, or
insert a fresh row. -/
def upsert_calendar (db : DB) (su gcal_id : String)
    (expected_count synced_count : Nat) (complete : Bool) : DB :=
  if db.calendars.any (fun c => decide (c.summary = su)) then
    { db with calendars := db.calendars.map (fun c =>
        if decide (c.summary = su) then ⟨su, gcal_id, expected_count, synced_count, complete⟩
        else c) }
  else
    { db with calendars :=
        db.calendars ++ [⟨su, gcal_id, expected_count, synced_count, complete⟩] }

def findCalRow (db : DB) (su : String) : Option CalRow :=
  db.calendars.find? (fun c => decide (c.summary = su))

/-! ### Remote calendar service model

A functional stand-in for the Google Calendar API as the source drives it:
calendars are listed/created by exact summary match (ensure_calendar_exists,
lines 347-368), events are listed per calendar id under a time window and
created from a payload whose start/end strings are echoed back by later list
calls (the dateTime-or-date read at lines 424-425 recovers exactly the
string the insert at lines 448-460 put in).  Fresh server ids come from a
counter.  Failure injection is not modelled here: claims C1/C2/C6 are about
the failure-free reconciliation algebra, while the failure behaviour is
verified separately on call_with_retry. -/

structure GEvent where
  id : String
  summary : String
  evStart : String
  evEnd : String
deriving DecidableEq, Repr

structure RemoteCal where
  name : String
  cid : String
  events : List GEvent
deriving DecidableEq, Repr

structure Remote where
  cals : List RemoteCal
  nextId : Nat
deriving DecidableEq, Repr

def freshId (r : Remote) : String × Remote :=
  ("g" ++ toString r.nextId, { r with nextId := r.nextId + 1 })

/-- ensure_calendar_exists: paginate calendarList for the first exact
summary match; create the calendar when absent.  Returns (id, created,
remote-after). -/
def ensure_calendar_exists (r : Remote) (course : String) : String × Bool × Remote :=
  match r.cals.find? (fun c => decide (c.name = course)) with
  | some c => (c.cid, false, r)
  | none =>
    let f := freshId r
    (f.1, true, { f.2 with cals := f.2.cals ++ [⟨course, f.1, []⟩] })

/-- events().list for a calendar id: all stored events passing the window
filter (pagination is exhaustive in the source, so one flat list). -/
def listEventsIn (r : Remote) (cal_id : String) (flt : GEvent → Bool) : List GEvent :=
  match r.cals.find? (fun c => decide (c.cid = cal_id)) with
  | some c => c.events.filter flt
  | none => []

/-- events().insert: the created event stores the payload's summary and
start/end signature strings and receives a fresh id. -/
def insertEvent (r : Remote) (cal_id su st en : String) : String × Remote :=
  let f := freshId r
  (f.1, { f.2 with cals := f.2.cals.map (fun c =>
      if decide (c.cid = cal_id) then { c with events := c.events ++ [⟨f.1, su, st, en⟩] }
      else c) })

/-! ### sync_course_with_db (lines 370-477) -/

/-- The refresh loop (lines 411-429): record every fetched remote event into
the store (idempotently). -/
def refreshDB (course cal_id : String) (fetched : List GEvent) (db : DB) : DB :=
  fetched.foldl (fun d ev =>
    (db_record_event d course cal_id (some ev.id) ev.summary ev.evStart ev.evEnd).1) db

/-- One iteration of the upload loop (lines 446-473): create the remote
event from the entry's payload, then record it; the counter mirrors
inserted += 1. -/
def uploadStep (course cal_id : String) (acc : Remote × DB × Nat) (x : ExpEntry) :
    Remote × DB × Nat :=
  let ins := insertEvent acc.1 cal_id x.row.subject x.startSig x.endSig
  let rec1 := db_record_event acc.2.1 course cal_id (some ins.1) x.subj x.startSig x.endSig
  (ins.2, rec1.1, acc.2.2 + 1)

def uploadMissing (course cal_id : String) (missing : List ExpEntry)
    (r : Remote) (db : DB) : Remote × DB × Nat :=
  missing.foldl (uploadStep course cal_id) (r, db, 0)

/-- expected_sigs.issubset(existing_sigs). -/
def sigsSubset (xs ys : List Sig) : Bool := xs.all (fun s => decide (s ∈ ys))

structure SyncResult where
  remote : Remote
  db : DB
  inserted : Nat
deriving DecidableEq, Repr

/-- Lines 431-477: the subset check, the missing computation, the upload
loop and the final upsert. -/
def syncFinish (course cal_id : String) (expected : List ExpEntry)
    (expected_sigs : List Sig) (r1 : Remote) (db1 : DB) : SyncResult :=
  let existing := db_existing_sigs db1 cal_id
  if sigsSubset expected_sigs existing then
    ⟨r1, upsert_calendar db1 course cal_id expected_sigs.length existing.length true, 0⟩
  else
    let missing := expected.filter (fun x => !(decide (sigOf x ∈ existing)))
    if missing.isEmpty then
      ⟨r1, upsert_calendar db1 course cal_id expected_sigs.length existing.length true, 0⟩
    else
      let u := uploadMissing course cal_id missing r1 db1
      let existing2 := db_existing_sigs u.2.1 cal_id
      ⟨u.1, upsert_calendar u.2.1 course cal_id expected_sigs.length existing2.length
        (sigsSubset expected_sigs existing2), u.2.2⟩

/-- sync_course_with_db: build the expected set, resolve the calendar,
refresh the store from the remote events in the window, then reconcile.
flt is the remote service's interpretation of a time window; the claims
below hold for every such interpretation. -/
def sync_course_with_db (flt : Window → GEvent → Bool) (r0 : Remote) (db0 : DB)
    (course : String) (rows : List Row) : SyncResult :=
  let b := buildExpected rows
  let expected_sigs := (b.expected.map sigOf).dedup
  let ec := ensure_calendar_exists r0 course
  let fetched := listEventsIn ec.2.2 ec.1 (flt (windowOfB b))
  let db1 := refreshDB course ec.1 fetched db0
  syncFinish course ec.1 b.expected expected_sigs ec.2.2 db1

/-! ### Claim C2: recordEvent is idempotent per (calendar id, signature) -/

/-- Claim C2: a second db_record_event call with the identical signature for
the same calendar id returns false dnd leaves the store untouched, and the
pair of calls leaves at most one matching row: the final number of rows
carrying this (calendar_id, summary, start, end) signature is
max(initial count, 1), so two calls never create two rows. -/
theorem db_record_event_idempotent (db : DB) (cs1 cs2 cal_id : String)
    (eid1 eid2 : Option String) (su st en : String) :
    (db_record_event (db_record_event db cs1 cal_id eid1 su st en).1
        cs2 cal_id eid2 su st en).2 = false
    ∧ (db_record_event (db_record_event db cs1 cal_id eid1 su st en).1
        cs2 cal_id eid2 su st en).1 = (db_record_event db cs1 cal_id eid1 su st en).1
    ∧ (db_record_event (db_record_event db cs1 cal_id eid1 su st en).1
        cs2 cal_id eid2 su st en).1.events.countP (fun row =>
          decide (row.calendar_id = cal_id ∧ row.summary = su ∧
                  row.evStart = st ∧ row.evEnd = en))
      = max (db.events.countP (fun row =>
          decide (row.calendar_id = cal_id ∧ row.summary = su ∧
                  row.evStart = st ∧ row.evEnd = en))) 1 := by
  by_cases h : db.events.any (fun row =>
      decide (row.calendar_id = cal_id ∧ row.summary = su ∧
              row.evStart = st ∧ row.evEnd = en)) = true
  · have h1 : db_record_event db cs1 cal_id eid1 su st en = (db, false) := by
      unfold db_record_event
      rw [if_pos h]
    rw [h1]
    have h2 : db_record_event db cs2 cal_id eid2 su st en = (db, false) := by
      unfold db_record_event
      rw [if_pos h]
    rw [h2]
    refine ⟨rfl, rfl, ?_⟩
    have hpos : 0 < db.events.countP (fun row =>
        decide (row.calendar_id = cal_id ∧ row.summary = su ∧
                row.evStart = st ∧ row.evEnd = en)) := by
      rw [List.countP_pos_iff]
      obtain ⟨x, hx, hpx⟩ := List.any_eq_true.mp h
      exact ⟨x, hx, hpx⟩
    exact (Nat.max_eq_left hpos).symm
  · have hfalse := Bool.not_eq_true _ |>.mp h
    have h1 : db_record_event db cs1 cal_id eid1 su st en =
        ({ db with events := db.events ++ [(⟨cs1, cal_id, eid1, su, st, en⟩ : EventRow)] }, true) := by
      unfold db_record_event
      rw [if_neg h]
    rw [h1]
    have hnew : (fun row : EventRow =>
        decide (row.calendar_id = cal_id ∧ row.summary = su ∧
                row.evStart = st ∧ row.evEnd = en))
        (⟨cs1, cal_id, eid1, su, st, en⟩ : EventRow) = true := by simp
    have hany2 : ((db.events ++ [(⟨cs1, cal_id, eid1, su, st, en⟩ : EventRow)]).any (fun row =>
        decide (row.calendar_id = cal_id ∧ row.summary = su ∧
                row.evStart = st ∧ row.evEnd = en))) = true := by
      rw [List.any_append, List.any_cons, List.any_nil]
      simp
    have h2 : db_record_event
        { db with events := db.events ++ [(⟨cs1, cal_id, eid1, su, st, en⟩ : EventRow)] }
        cs2 cal_id eid2 su st en =
        ({ db with events := db.events ++ [(⟨cs1, cal_id, eid1, su, st, en⟩ : EventRow)] }, false) := by
      unfold db_record_event
      rw [if_pos hany2]
    rw [h2]
    refine ⟨rfl, rfl, ?_⟩
    have hz : db.events.countP (fun row =>
        decide (row.calendar_id = cal_id ∧ row.summary = su ∧
                row.evStart = st ∧ row.evEnd = en)) = 0 := by
      rw [List.countP_eq_zero]
      intro a ha
      exact fun hpa => (List.any_eq_false.mp hfalse a ha) hpa
    show (db.events ++ [(⟨cs1, cal_id, eid1, su, st, en⟩ : EventRow)]).countP _ = _
    rw [List.countP_append _ _ _, hz]
    rw [List.countP_cons, List.countP_nil]
    simp

/-! ### Claim C10: the category key is total and defaults to Unknown -/

theorem find?_append_none {α : Type} (l l' : List α) (p : α → Bool)
    (h : l.find? p = none) :
    (l ++ l').find? p = l'.find? p := by
  rw [List.find?_append, h, Option.none_or]

/-- After resolution, a calendar with exactly the requested name exists
remotely and carries the id the engine will sync into. -/
theorem ensure_find_self (r : Remote) (course : String) :
    ∃ c, ((ensure_calendar_exists r course).2.2).cals.find?
        (fun c' => decide (c'.name = course)) = some c
      ∧ c.cid = (ensure_calendar_exists r course).1 := by
  unfold ensure_calendar_exists
  cases hf : r.cals.find? (fun c' => decide (c'.name = course)) with
  | some c => exact ⟨c, hf, rfl⟩
  | none =>
    refine ⟨(⟨course, (freshId r).1, []⟩ : RemoteCal), ?_, rfl⟩
    show ((freshId r).2.cals ++ [(⟨course, (freshId r).1, []⟩ : RemoteCal)]).find? _ = _
    have : (freshId r).2.cals = r.cals := rfl
    rw [this, find?_append_none _ _ _ hf]
    simp [List.find?]

/-- Claim C10: course_from_subject is total (a Lean function by
construction) and sends the empty subject to the literal key Unknown;
consequently a row without a subject lands in the Unknown group of
cmd_sync's desired set, and calendar resolution for that group yields a
remote calendar whose name is exactly Unknown. -/
theorem course_key_unknown (rows : List Row) (r : Row)
    (hr : r ∈ rows) (hs : r.subject = "") :
    course_from_subject r.subject = "Unknown"
    ∧ "Unknown" ∈ syncDesired rows
    ∧ ∀ rem : Remote, ∃ c,
        ((ensure_calendar_exists rem "Unknown").2.2).cals.find?
          (fun c' => decide (c'.name = "Unknown")) = some c
        ∧ c.cid = (ensure_calendar_exists rem "Unknown").1
        ∧ c.name = "Unknown" := by
  have h1 : course_from_subject r.subject = "Unknown" := by
    rw [hs]
    decide
  refine ⟨h1, ?_, ?_⟩
  · unfold syncDesired
    rw [List.mem_dedup]
    exact List.mem_map.mpr ⟨r, hr, h1⟩
  · intro rem
    obtain ⟨c, hfind, hcid⟩ := ensure_find_self rem "Unknown"
    refine ⟨c, hfind, hcid, ?_⟩
    have := List.find?_some hfind
    exact of_decide_eq_true this

def emptySubjectRow : Row := ⟨"", "01/05/2025", "8:30 AM", "01/05/2025", "10:30 AM", "", "d"⟩

theorem course_key_unknown_witness :
    course_from_subject emptySubjectRow.subject = "Unknown"
    ∧ "Unknown" ∈ syncDesired [emptySubjectRow]
    ∧ ∃ c, ((ensure_calendar_exists ⟨[], 0⟩ "Unknown").2.2).cals.find?
          (fun c' => decide (c'.name = "Unknown")) = some c
        ∧ c.cid = (ensure_calendar_exists ⟨[], 0⟩ "Unknown").1
        ∧ c.name = "Unknown" := by
  have h := course_key_unknown [emptySubjectRow] emptySubjectRow (by decide) (by decide)
  exact ⟨h.1, h.2.1, h.2.2 ⟨[], 0⟩⟩

/-! ### Claim C9 (amended): unparseable rows are skipped silently -/

theorem buildExpected_warnings_aux (rows : List Row) :
    ∀ st : BuildSt, (rows.foldl buildStep st).warnings = st.warnings := by
  induction rows with
  | nil => intro st; rfl
  | cons r t ih =>
    intro st
    rw [List.foldl_cons, ih]
    unfold buildStep
    cases parse_dt r with
    | none => rfl
    | some p => cases p <;> rfl

/-- Claim C9 (amended): a row whose date/time fields fail to parse is
skipped and excluded from all downstream computation — with it removed from
the input, the expected-set state and the entire sync result are unchanged —
but the skip is silent: the loop emits no warning for it (its warning log is
empty, contrary to the reported-warning half of the original claim). -/
theorem parse_skipped_excluded (flt : Window → GEvent → Bool) (r0 : Remote)
    (db0 : DB) (course : String) (rows1 rows2 : List Row) (r : Row)
    (h : parse_dt r = none) :
    buildExpected (rows1 ++ r :: rows2) = buildExpected (rows1 ++ rows2)
    ∧ (buildExpected (rows1 ++ r :: rows2)).warnings = []
    ∧ sync_course_with_db flt r0 db0 course (rows1 ++ r :: rows2) =
        sync_course_with_db flt r0 db0 course (rows1 ++ rows2) := by
  have hb := buildExpected_skip rows1 rows2 r h
  refine ⟨hb, buildExpected_warnings_aux _ _, ?_⟩
  unfold sync_course_with_db
  rw [hb]

theorem parse_skipped_excluded_witness :
    buildExpected ([] ++ badDateRow :: []) = buildExpected ([] ++ [])
    ∧ (buildExpected ([] ++ badDateRow :: [])).warnings = []
    ∧ sync_course_with_db (fun _ _ => true) ⟨[], 0⟩ ⟨[], []⟩ "Math"
        ([] ++ badDateRow :: []) =
      sync_course_with_db (fun _ _ => true) ⟨[], 0⟩ ⟨[], []⟩ "Math" ([] ++ []) :=
  parse_skipped_excluded (fun _ _ => true) ⟨[], 0⟩ ⟨[], []⟩ "Math" [] [] badDateRow
    (by decide)

/-! ### Duplicate Scanner/Pruner: cmd_dedupe (lines 619-725) -/

def PROTECTED_KEYWORDS : List String :=
  ["holiday", "birth", "task", "morocco", "semaine", "@", "primary"]

/-- Line 691: any(k in summary.lower() for k in PROTECTED_KEYWORDS). -/
def isProtected (summary : String) : Bool :=
  PROTECTED_KEYWORDS.any (fun k => containsSub (pyLower summary) k)

/-- Line 695: the grouping key (summary.strip(), start, end). -/
def dedupeKey (ev : GEvent) : Sig := (pyStrip ev.summary, ev.evStart, ev.evEnd)

/-- One iteration of the duplicate-identification loop (lines 689-699):
protected events are skipped before any grouping; an event whose key was
already seen joins the dupes list, otherwise its key is recorded. -/
def dedupeScanStep (acc : List Sig × List GEvent) (ev : GEvent) :
    List Sig × List GEvent :=
  if isProtected ev.summary then acc
  else if dedupeKey ev ∈ acc.1 then (acc.1, acc.2 ++ [ev])
  else (acc.1 ++ [dedupeKey ev], acc.2)

/-- The dupes list for one calendar's events. -/
def dedupeDupes (events : List GEvent) : List GEvent :=
  (events.foldl dedupeScanStep ([], [])).2

/-- The deletion candidates (lines 709-713): every dupe with a non-empty id
(a dry run deletes none of them, a live run deletes exactly these). -/
def dedupeDeletions (events : List GEvent) : List GEvent :=
  (dedupeDupes events).filter (fun ev => decide (ev.id ≠ ""))

theorem dedupe_fold_protected (evs : List GEvent) :
    ∀ (acc : List Sig × List GEvent) (e : GEvent),
      isProtected e.summary = true → e ∉ acc.2 →
      e ∉ (evs.foldl dedupeScanStep acc).2 := by
  induction evs with
  | nil => intro acc e _ hmem; exact hmem
  | cons x t ih =>
    intro acc e hprot hmem
    rw [List.foldl_cons]
    apply ih
    · exact hprot
    · unfold dedupeScanStep
      by_cases hp : isProtected x.summary = true
      · rw [if_pos hp]; exact hmem
      · rw [if_neg hp]
        by_cases hs : dedupeKey x ∈ acc.1
        · rw [if_pos hs]
          intro hin
          rcases List.mem_append.mp hin with h1 | h2
          · exact hmem h1
          · have : e = x := List.mem_singleton.mp h2
            rw [this] at hprot
            exact hp hprot
        · rw [if_neg hs]; exact hmem

/-- Claim C8: an event whose subject contains a protected keyword
(case-insensitively) is never selected as a duplicate-deletion candidate:
it never appears in the dupes list (so it is never counted) and never in the
deletion list, whatever the calendar's events are. -/
theorem protected_never_duplicate (evs : List GEvent) (e : GEvent)
    (h : isProtected e.summary = true) :
    e ∉ dedupeDupes evs ∧ e ∉ dedupeDeletions evs := by
  have h1 : e ∉ dedupeDupes evs :=
    dedupe_fold_protected evs ([], []) e h (List.not_mem_nil e)
  exact ⟨h1, fun hin => h1 (List.mem_filter.mp hin).1⟩

def protEv1 : GEvent := ⟨"p1", "Morocco Holiday", "2025-01-01", "2025-01-02"⟩
def protEv2 : GEvent := ⟨"p2", "Morocco Holiday", "2025-01-01", "2025-01-02"⟩

theorem protected_never_duplicate_witness :
    protEv2 ∉ dedupeDupes [protEv1, protEv2]
    ∧ protEv2 ∉ dedupeDeletions [protEv1, protEv2] :=
  protected_never_duplicate [protEv1, protEv2] protEv2 (by decide)

/-! ### Claim C7: which key does each duplicate check actually use? -/

/-- Lines 789-791 of upload_single_course: the signature extracted from an
existing remote event is the PAIR (summary, start) — the end is dropped. -/
def uploadRemoteSig (ev : GEvent) : String × String := (ev.summary, ev.evStart)

def uploadSigsOf (evs : List GEvent) : List (String × String) := evs.map uploadRemoteSig

def startIsoOf : Parsed → String
  | .allday sd _ => sd.iso
  | .timed s _ => s.iso

/-- The insert loop of upload_single_course (lines 796-827), restricted to
its decision structure: a row is inserted iff it parses and its
(Subject, sig_date) pair — sig_date is the start isoformat in both branches
(lines 808, 816) — is not among the remote pairs. -/
def uploadInsertLoop (sigs : List (String × String)) (rows : List Row) : List Row :=
  rows.filter (fun r =>
    match parse_dt r with
    | none => false
    | some p => !(decide ((r.subject, startIsoOf p) ∈ sigs)))

/-- The claim of C7 read literally is false for the upload path: its
skip-existing check compares (subject, start) only.  Concretely, a remote
event with the same subject and start but a different end suppresses the
upload of a record whose full (subject, start, end) signature is present
nowhere remotely. -/
def evA : GEvent :=
  ⟨"e1", "Analyse — Sec6 S14", "2025-01-05T08:30:00", "2025-01-05T09:30:00"⟩

def rowA : Row :=
  ⟨"Analyse — Sec6 S14", "01/05/2025", "8:30 AM", "01/05/2025", "10:30 AM", "", "d"⟩

theorem upload_key_counterexample :
    uploadInsertLoop (uploadSigsOf [evA]) [rowA] = []
    ∧ parse_dt rowA = some (.timed ⟨⟨2025, 1, 5⟩, 8, 30⟩ ⟨⟨2025, 1, 5⟩, 10, 30⟩)
    ∧ (∀ ev ∈ [evA],
        (ev.summary, ev.evStart, ev.evEnd) ≠
          (rowA.subject, "2025-01-05T08:30:00", "2025-01-05T10:30:00")) :=
  ⟨by decide, by decide, by decide⟩

theorem dedupe_fold_count (evs : List GEvent) :
    ∀ (seen : List Sig) (dupes : List GEvent) (e : GEvent),
      e ∈ (evs.foldl dedupeScanStep (seen, dupes)).2 →
      e ∈ dupes
      ∨ 2 ≤ evs.countP (fun x => decide (dedupeKey x = dedupeKey e))
      ∨ (dedupeKey e ∈ seen
         ∧ 1 ≤ evs.countP (fun x => decide (dedupeKey x = dedupeKey e))) := by
  induction evs with
  | nil => intro seen dupes e h; exact Or.inl h
  | cons x t ih =>
    intro seen dupes e h
    rw [List.foldl_cons] at h
    unfold dedupeScanStep at h
    by_cases hp : isProtected x.summary = true
    · rw [if_pos hp] at h
      rcases ih seen dupes e h with h1 | h2 | h3
      · exact Or.inl h1
      · right; left; rw [List.countP_cons]; omega
      · right; right; exact ⟨h3.1, by rw [List.countP_cons]; omega⟩
    · rw [if_neg hp] at h
      by_cases hs : dedupeKey x ∈ seen
      · rw [if_pos hs] at h
        rcases ih seen (dupes ++ [x]) e h with h1 | h2 | h3
        · rcases List.mem_append.mp h1 with ha | hb
          · exact Or.inl ha
          · have hex : e = x := List.mem_singleton.mp hb
            subst hex
            right; right
            refine ⟨hs, ?_⟩
            rw [List.countP_cons_of_pos _ _ (by simp)]
            omega
        · right; left; rw [List.countP_cons]; omega
        · right; right; exact ⟨h3.1, by rw [List.countP_cons]; omega⟩
      · rw [if_neg hs] at h
        rcases ih (seen ++ [dedupeKey x]) dupes e h with h1 | h2 | h3
        · exact Or.inl h1
        · right; left; rw [List.countP_cons]; omega
        · rcases List.mem_append.mp h3.1 with ha | hb
          · right; right; exact ⟨ha, by rw [List.countP_cons]; omega⟩
          · have hkey : dedupeKey e = dedupeKey x := List.mem_singleton.mp hb
            right; left
            have h1c := h3.2
            rw [List.countP_cons_of_pos _ _ (by rw [hkey]; simp)]
            omega

/-- Claim C7 (amended): the duplicate scanner groups by the full identity
signature (trimmed subject, start, end) — an event lands in the dupes list
only if at least two scanned events share its full key — while the upload
path's skip-existing check compares only the (subject, start) pair: a row is
inserted iff it parses and that pair is absent remotely, with the end never
consulted. -/
theorem signature_key_usage (sigs : List (String × String)) (rows : List Row)
    (r : Row) (evs : List GEvent) (e : GEvent) :
    (r ∈ uploadInsertLoop sigs rows ↔
      (r ∈ rows ∧ ∃ p, parse_dt r = some p ∧ (r.subject, startIsoOf p) ∉ sigs))
    ∧ (e ∈ dedupeDupes evs →
      2 ≤ evs.countP (fun x => decide (dedupeKey x = dedupeKey e))) := by
  constructor
  · unfold uploadInsertLoop
    rw [List.mem_filter]
    constructor
    · rintro ⟨hmem, hpred⟩
      refine ⟨hmem, ?_⟩
      cases hp : parse_dt r with
      | none => rw [hp] at hpred; simp at hpred
      | some p =>
        rw [hp] at hpred
        simp only [Bool.not_eq_true'] at hpred
        refine ⟨p, rfl, ?_⟩
        intro hin
        simp only [decide_eq_false_iff_not] at hpred
        exact hpred hin
    · rintro ⟨hmem, p, hp, hnin⟩
      refine ⟨hmem, ?_⟩
      rw [hp]
      simp only [Bool.not_eq_true']
      exact decide_eq_false hnin
  · intro h
    rcases dedupe_fold_count evs [] [] e h with h1 | h2 | h3
    · exact absurd h1 (List.not_mem_nil e)
    · exact h2
    · exact absurd h3.1 (List.not_mem_nil _)

def dupEv1 : GEvent := ⟨"d1", "Algebre — Sec6 S15", "2025-01-06T10:30:00", "2025-01-06T12:30:00"⟩
def dupEv2 : GEvent := ⟨"d2", "Algebre — Sec6 S15", "2025-01-06T10:30:00", "2025-01-06T12:30:00"⟩

theorem signature_key_usage_witness :
    2 ≤ ([dupEv1, dupEv2].countP (fun x => decide (dedupeKey x = dedupeKey dupEv2))) :=
  (signature_key_usage [] [] rowA [dupEv1, dupEv2] dupEv2).2 (by decide)

/-! ### Claim C6: which records determine the refresh window -/

def minFold (o : Option DateTime) (ts : List DateTime) : Option DateTime :=
  ts.foldl (fun acc s => some (match acc with
    | none => s
    | some m => if dtLt s m then s else m)) o

def maxFold (o : Option DateTime) (ts : List DateTime) : Option DateTime :=
  ts.foldl (fun acc e => some (match acc with
    | none => e
    | some m => if dtLt m e then e else m)) o

theorem buildFold_minmax (rows : List Row) :
    ∀ st : BuildSt,
      (rows.foldl buildStep st).minDt = minFold st.minDt ((timedPairs rows).map Prod.fst)
      ∧ (rows.foldl buildStep st).maxDt = maxFold st.maxDt ((timedPairs rows).map Prod.snd) := by
  induction rows with
  | nil => intro st; exact ⟨rfl, rfl⟩
  | cons r t ih =>
    intro st
    rw [List.foldl_cons]
    have htp : timedPairs (r :: t) =
        (match parse_dt r with
          | some (.timed s e) => some ((s, e))
          | _ => none).toList ++ timedPairs t := by
      unfold timedPairs
      rw [List.filterMap_cons]
      cases hp : parse_dt r with
      | none => simp
      | some p => cases p <;> simp
    cases hp : parse_dt r with
    | none =>
      rw [buildStep_skip st r hp]
      rw [htp, hp]
      exact ih st
    | some p =>
      cases p with
      | allday sd ed =>
        have hstep : buildStep st r =
            { st with expected := st.expected ++ [⟨r.subject, sd.iso, ed.iso, r, true⟩] } := by
          unfold buildStep
          rw [hp]
        rw [hstep, htp, hp]
        simpa using ih _
      | timed s e =>
        have hstep : buildStep st r =
            { st with
              expected := st.expected ++ [⟨r.subject, s.iso, e.iso, r, false⟩],
              minDt := some (match st.minDt with
                | none => s
                | some m => if dtLt s m then s else m),
              maxDt := some (match st.maxDt with
                | none => e
                | some m => if dtLt m e then e else m) } := by
          unfold buildStep
          rw [hp]
        rw [hstep, htp, hp]
        have := ih ({ st with
          expected := st.expected ++ [⟨r.subject, s.iso, e.iso, r, false⟩],
          minDt := some (match st.minDt with
            | none => s
            | some m => if dtLt s m then s else m),
          maxDt := some (match st.maxDt with
            | none => e
            | some m => if dtLt m e then e else m) })
        simpa using this

theorem minFold_some_ex (ts : List DateTime) :
    ∀ m : DateTime, ∃ mn, minFold (some m) ts = some mn := by
  induction ts with
  | nil => intro m; exact ⟨m, rfl⟩
  | cons s t ih =>
    intro m
    exact ih _

theorem maxFold_some_ex (ts : List DateTime) :
    ∀ m : DateTime, ∃ mx, maxFold (some m) ts = some mx := by
  induction ts with
  | nil => intro m; exact ⟨m, rfl⟩
  | cons s t ih =>
    intro m
    exact ih _

theorem minFold_spec (ts : List DateTime) :
    ∀ m mn : DateTime, minFold (some m) ts = some mn →
      (mn = m ∨ mn ∈ ts) ∧ mn.key ≤ m.key ∧ ∀ t ∈ ts, mn.key ≤ t.key := by
  induction ts with
  | nil =>
    intro m mn h
    have : m = mn := Option.some.inj h
    subst this
    exact ⟨Or.inl rfl, Nat.le_refl _, by intro t ht; exact absurd ht (List.not_mem_nil t)⟩
  | cons s t ih =>
    intro m mn h
    have hstep : minFold (some m) (s :: t) =
        minFold (some (if dtLt s m then s else m)) t := rfl
    rw [hstep] at h
    obtain ⟨hmem, hle, hall⟩ := ih _ mn h
    have hm'le : (if dtLt s m then s else m).key ≤ m.key := by
      by_cases hlt : dtLt s m = true
      · rw [if_pos hlt]
        unfold dtLt at hlt
        have := of_decide_eq_true hlt
        omega
      · rw [if_neg hlt]
    have hm'les : (if dtLt s m then s else m).key ≤ s.key := by
      by_cases hlt : dtLt s m = true
      · rw [if_pos hlt]
      · rw [if_neg hlt]
        unfold dtLt at hlt
        have := of_decide_eq_false (Bool.not_eq_true _ |>.mp hlt)
        omega
    refine ⟨?_, Nat.le_trans hle hm'le, ?_⟩
    · rcases hmem with h1 | h2
      · by_cases hlt : dtLt s m = true
        · rw [if_pos hlt] at h1
          exact Or.inr (h1 ▸ List.mem_cons_self s t)
        · rw [if_neg hlt] at h1
          exact Or.inl h1
      · exact Or.inr (List.mem_cons_of_mem s h2)
    · intro u hu
      rcases List.mem_cons.mp hu with h1 | h2
      · subst h1
        exact Nat.le_trans hle hm'les
      · exact hall u h2

theorem maxFold_spec (ts : List DateTime) :
    ∀ m mx : DateTime, maxFold (some m) ts = some mx →
      (mx = m ∨ mx ∈ ts) ∧ m.key ≤ mx.key ∧ ∀ t ∈ ts, t.key ≤ mx.key := by
  induction ts with
  | nil =>
    intro m mx h
    have : m = mx := Option.some.inj h
    subst this
    exact ⟨Or.inl rfl, Nat.le_refl _, by intro t ht; exact absurd ht (List.not_mem_nil t)⟩
  | cons s t ih =>
    intro m mx h
    have hstep : maxFold (some m) (s :: t) =
        maxFold (some (if dtLt m s then s else m)) t := rfl
    rw [hstep] at h
    obtain ⟨hmem, hle, hall⟩ := ih _ mx h
    have hm'ge : m.key ≤ (if dtLt m s then s else m).key := by
      by_cases hlt : dtLt m s = true
      · rw [if_pos hlt]
        unfold dtLt at hlt
        have := of_decide_eq_true hlt
        omega
      · rw [if_neg hlt]
    have hm'ges : s.key ≤ (if dtLt m s then s else m).key := by
      by_cases hlt : dtLt m s = true
      · rw [if_pos hlt]
      · rw [if_neg hlt]
        unfold dtLt at hlt
        have := of_decide_eq_false (Bool.not_eq_true _ |>.mp hlt)
        omega
    refine ⟨?_, Nat.le_trans hm'ge hle, ?_⟩
    · rcases hmem with h1 | h2
      · by_cases hlt : dtLt m s = true
        · rw [if_pos hlt] at h1
          exact Or.inr (h1 ▸ List.mem_cons_self s t)
        · rw [if_neg hlt] at h1
          exact Or.inl h1
      · exact Or.inr (List.mem_cons_of_mem s h2)
    · intro u hu
      rcases List.mem_cons.mp hu with h1 | h2
      · subst h1
        exact Nat.le_trans hm'ges hle
      · exact hall u h2

/-- The claim of C6 read literally is false: the min/max accumulation is
guarded by isinstance(s, datetime), so all-day rows never contribute.  A
desired set consisting of one all-day row is non-empty, yet the fallback
now..now+180d window is used. -/
def allDayRow : Row := ⟨"Semaine S14", "01/05/2025", "", "01/06/2025", "", "True", ""⟩

theorem window_fallback_counterexample :
    (buildExpected [allDayRow]).expected ≠ []
    ∧ windowOf [allDayRow] = Window.fallback :=
  ⟨by decide, by decide⟩

/-- Claim C6 (amended): the refresh window is determined by the timed
(non-all-day) desired records only: the fallback window is used iff the
category has no timed record that parses, and otherwise the window spans
exactly the chronologically earliest timed start to the latest timed end. -/
theorem window_span_characterization (rows : List Row) :
    (windowOf rows = Window.fallback ↔ timedPairs rows = [])
    ∧ (∀ mn mx, windowOf rows = Window.span mn mx →
        (mn ∈ (timedPairs rows).map Prod.fst
         ∧ (∀ t ∈ (timedPairs rows).map Prod.fst, mn.key ≤ t.key)
         ∧ mx ∈ (timedPairs rows).map Prod.snd
         ∧ (∀ t ∈ (timedPairs rows).map Prod.snd, t.key ≤ mx.key))) := by
  obtain ⟨hmin, hmax⟩ := buildFold_minmax rows ⟨[], none, none, []⟩
  have hbmin : (buildExpected rows).minDt = minFold none ((timedPairs rows).map Prod.fst) := hmin
  have hbmax : (buildExpected rows).maxDt = maxFold none ((timedPairs rows).map Prod.snd) := hmax
  constructor
  · constructor
    · intro hf
      by_contra hne
      obtain ⟨p, ps, htp⟩ : ∃ p ps, timedPairs rows = p :: ps := by
        cases htp : timedPairs rows with
        | nil => exact absurd htp hne
        | cons p ps => exact ⟨p, ps, rfl⟩
      obtain ⟨mn, hmn⟩ := minFold_some_ex (ps.map Prod.fst) p.1
      obtain ⟨mx, hmx⟩ := maxFold_some_ex (ps.map Prod.snd) p.2
      have h1 : (buildExpected rows).minDt = some mn := by
        rw [hbmin, htp, List.map_cons]
        exact hmn
      have h2 : (buildExpected rows).maxDt = some mx := by
        rw [hbmax, htp, List.map_cons]
        exact hmx
      unfold windowOf windowOfB at hf
      rw [h1, h2] at hf
      exact Window.noConfusion hf
    · intro hnil
      unfold windowOf windowOfB
      rw [hbmin, hbmax, hnil]
      rfl
  · intro mn mx hspan
    unfold windowOf windowOfB at hspan
    cases h1 : (buildExpected rows).minDt with
    | none => rw [h1] at hspan; cases h2 : (buildExpected rows).maxDt <;>
        (rw [h2] at hspan; exact Window.noConfusion hspan)
    | some mn' =>
      cases h2 : (buildExpected rows).maxDt with
      | none => rw [h1, h2] at hspan; exact Window.noConfusion hspan
      | some mx' =>
        rw [h1, h2] at hspan
        rw [Window.span.injEq] at hspan
        obtain ⟨hmn', hmx'⟩ := hspan
        subst hmn'; subst hmx'
        rw [hbmin] at h1
        rw [hbmax] at h2
        obtain ⟨s0, ss, hss⟩ : ∃ s0 ss, (timedPairs rows).map Prod.fst = s0 :: ss := by
          cases hts : (timedPairs rows).map Prod.fst with
          | nil => rw [hts] at h1; exact Option.noConfusion h1
          | cons s0 ss => exact ⟨s0, ss, rfl⟩
        obtain ⟨e0, es, hes⟩ : ∃ e0 es, (timedPairs rows).map Prod.snd = e0 :: es := by
          cases hts : (timedPairs rows).map Prod.snd with
          | nil => rw [hts] at h2; exact Option.noConfusion h2
          | cons e0 es => exact ⟨e0, es, rfl⟩
        rw [hss] at h1
        rw [hes] at h2
        obtain ⟨hmem1, hle1, hall1⟩ := minFold_spec ss s0 mn' h1
        obtain ⟨hmem2, hle2, hall2⟩ := maxFold_spec es e0 mx' h2
        refine ⟨?_, ?_, ?_, ?_⟩
        · rw [hss]
          rcases hmem1 with h | h
          · exact h ▸ List.mem_cons_self s0 ss
          · exact List.mem_cons_of_mem s0 h
        · intro t ht
          rw [hss] at ht
          rcases List.mem_cons.mp ht with h | h
          · subst h; exact hle1
          · exact hall1 t h
        · rw [hes]
          rcases hmem2 with h | h
          · exact h ▸ List.mem_cons_self e0 es
          · exact List.mem_cons_of_mem e0 h
        · intro t ht
          rw [hes] at ht
          rcases List.mem_cons.mp ht with h | h
          · subst h; exact hle2
          · exact hall2 t h

theorem window_span_characterization_witness :
    (⟨⟨2025, 1, 5⟩, 8, 30⟩ : DateTime) ∈ (timedPairs [rowA]).map Prod.fst
    ∧ (∀ t ∈ (timedPairs [rowA]).map Prod.fst,
        (⟨⟨2025, 1, 5⟩, 8, 30⟩ : DateTime).key ≤ t.key)
    ∧ (⟨⟨2025, 1, 5⟩, 10, 30⟩ : DateTime) ∈ (timedPairs [rowA]).map Prod.snd
    ∧ (∀ t ∈ (timedPairs [rowA]).map Prod.snd,
        t.key ≤ (⟨⟨2025, 1, 5⟩, 10, 30⟩ : DateTime).key) :=
  (window_span_characterization [rowA]).2 ⟨⟨2025, 1, 5⟩, 8, 30⟩ ⟨⟨2025, 1, 5⟩, 10, 30⟩
    (by decide)

/-! ### Claim C1: lemmas about the store and the remote state -/

theorem mem_sigs_iff (db : DB) (cid : String) (s : Sig) :
    s ∈ db_existing_sigs db cid ↔
      ∃ row ∈ db.events, row.calendar_id = cid ∧
        (row.summary, row.evStart, row.evEnd) = s := by
  unfold db_existing_sigs
  rw [List.mem_dedup, List.mem_map]
  constructor
  · rintro ⟨row, hrow, hfeq⟩
    have hm := List.mem_filter.mp hrow
    exact ⟨row, hm.1, of_decide_eq_true hm.2, hfeq⟩
  · rintro ⟨row, hrow, hcid, hfeq⟩
    exact ⟨row, List.mem_filter.mpr ⟨hrow, decide_eq_true hcid⟩, hfeq⟩

theorem record_events_cases (db : DB) (cs cid : String) (eid : Option String)
    (su st en : String) :
    (db_record_event db cs cid eid su st en).1.events = db.events
    ∨ (db_record_event db cs cid eid su st en).1.events =
        db.events ++ [⟨cs, cid, eid, su, st, en⟩] := by
  unfold db_record_event
  split
  · exact Or.inl rfl
  · exact Or.inr rfl

theorem mem_sigs_record_self (db : DB) (cs cid : String) (eid : Option String)
    (su st en : String) :
    (su, st, en) ∈ db_existing_sigs (db_record_event db cs cid eid su st en).1 cid := by
  unfold db_record_event
  by_cases h : db.events.any (fun row =>
      decide (row.calendar_id = cid ∧ row.summary = su ∧
              row.evStart = st ∧ row.evEnd = en)) = true
  · rw [if_pos h]
    obtain ⟨row, hrow, hp⟩ := List.any_eq_true.mp h
    have hp' := of_decide_eq_true hp
    exact (mem_sigs_iff db cid _).mpr
      ⟨row, hrow, hp'.1, by rw [hp'.2.1, hp'.2.2.1, hp'.2.2.2]⟩
  · rw [if_neg h]
    refine (mem_sigs_iff _ cid _).mpr ⟨⟨cs, cid, eid, su, st, en⟩, ?_, rfl, rfl⟩
    exact List.mem_append_right _ (List.mem_singleton.mpr rfl)

theorem sigs_record_mono (db : DB) (cs cid : String) (eid : Option String)
    (su st en cid' : String) (s : Sig) (h : s ∈ db_existing_sigs db cid') :
    s ∈ db_existing_sigs (db_record_event db cs cid eid su st en).1 cid' := by
  obtain ⟨row, hrow, hcid, hs⟩ := (mem_sigs_iff db cid' s).mp h
  rcases record_events_cases db cs cid eid su st en with he | he
  · exact (mem_sigs_iff _ cid' s).mpr ⟨row, by rw [he]; exact hrow, hcid, hs⟩
  · exact (mem_sigs_iff _ cid' s).mpr
      ⟨row, by rw [he]; exact List.mem_append_left _ hrow, hcid, hs⟩

theorem sigs_refresh_mono (course cid : String) (fetched : List GEvent) :
    ∀ (db : DB) (cid' : String) (s : Sig), s ∈ db_existing_sigs db cid' →
      s ∈ db_existing_sigs (refreshDB course cid fetched db) cid' := by
  unfold refreshDB
  induction fetched with
  | nil => intro db cid' s h; exact h
  | cons ev t ih =>
    intro db cid' s h
    rw [List.foldl_cons]
    exact ih _ cid' s (sigs_record_mono db course cid (some ev.id)
      ev.summary ev.evStart ev.evEnd cid' s h)

theorem sigs_upload (course cid : String) (missing : List ExpEntry) :
    ∀ (acc : Remote × DB × Nat) (s : Sig),
      (s ∈ db_existing_sigs acc.2.1 cid ∨ ∃ x ∈ missing, sigOf x = s) →
      s ∈ db_existing_sigs ((missing.foldl (uploadStep course cid) acc)).2.1 cid := by
  induction missing with
  | nil =>
    intro acc s h
    rcases h with h | ⟨x, hx, _⟩
    · exact h
    · exact absurd hx (List.not_mem_nil x)
  | cons x t ih =>
    intro acc s h
    rw [List.foldl_cons]
    rcases h with h | ⟨x', hx', hs⟩
    · exact ih _ s (Or.inl (sigs_record_mono acc.2.1 course cid _ x.subj x.startSig
        x.endSig cid s h))
    · rcases List.mem_cons.mp hx' with h1 | h2
      · subst h1
        apply ih _ s
        apply Or.inl
        rw [← hs]
        exact mem_sigs_record_self acc.2.1 course cid _ x'.subj x'.startSig x'.endSig
      · exact ih _ s (Or.inr ⟨x', h2, hs⟩)

theorem sigs_upsert (db : DB) (su g : String) (ec sc : Nat) (co : Bool) (cid : String) :
    db_existing_sigs (upsert_calendar db su g ec sc co) cid = db_existing_sigs db cid := by
  unfold upsert_calendar
  split <;> rfl

theorem sigsSubset_iff (xs ys : List Sig) :
    sigsSubset xs ys = true ↔ ∀ s ∈ xs, s ∈ ys := by
  unfold sigsSubset
  rw [List.all_eq_true]
  constructor
  · intro h s hs; exact of_decide_eq_true (h s hs)
  · intro h s hs; exact decide_eq_true (h s hs)

theorem find_map_replace (su : String) (newRow : CalRow) (hnew : newRow.summary = su) :
    ∀ l : List CalRow, l.any (fun c => decide (c.summary = su)) = true →
      (l.map (fun c => if decide (c.summary = su) then newRow else c)).find?
        (fun c => decide (c.summary = su)) = some newRow := by
  intro l
  induction l with
  | nil => intro h; simp at h
  | cons c t ih =>
    intro h
    rw [List.map_cons]
    by_cases hc : c.summary = su
    · rw [if_pos (decide_eq_true hc)]
      exact List.find?_cons_of_pos _ (decide_eq_true hnew)
    · rw [if_neg (by simpa using hc)]
      rw [List.find?_cons_of_neg _ (by simpa using hc)]
      apply ih
      rw [List.any_cons, decide_eq_false hc, Bool.false_or] at h
      exact h

theorem find_append_new (su : String) (newRow : CalRow) (hnew : newRow.summary = su)
    (l : List CalRow) (h : l.any (fun c => decide (c.summary = su)) = false) :
    ((l ++ [newRow]).find? (fun c => decide (c.summary = su))) = some newRow := by
  have hn : l.find? (fun c => decide (c.summary = su)) = none := by
    rw [List.find?_eq_none]
    intro x hx
    have := List.any_eq_false.mp h x hx
    simpa using this
  rw [find?_append_none _ _ _ hn]
  exact List.find?_cons_of_pos _ (decide_eq_true hnew)

/-- After upsert_calendar, looking the summary up yields exactly the row
just written (whether it replaced matching rows or was appended). -/
theorem upsert_find (db : DB) (su g : String) (ec sc : Nat) (co : Bool) :
    findCalRow (upsert_calendar db su g ec sc co) su = some ⟨su, g, ec, sc, co⟩ := by
  unfold upsert_calendar findCalRow
  by_cases h : db.calendars.any (fun c => decide (c.summary = su)) = true
  · rw [if_pos h]
    exact find_map_replace su ⟨su, g, ec, sc, co⟩ rfl db.calendars h
  · rw [if_neg h]
    exact find_append_new su _ rfl db.calendars (Bool.not_eq_true _ |>.mp h)

/-- The (name, id) signature of a remote calendar: event insertion preserves
it for every calendar. -/
def calSig (c : RemoteCal) : String × String := (c.name, c.cid)

theorem insertEvent_calSig (r : Remote) (cid su st en : String) :
    ((insertEvent r cid su st en).2).cals.map calSig = r.cals.map calSig := by
  show (r.cals.map (fun c =>
      if decide (c.cid = cid) then
        { c with events := c.events ++ [⟨(freshId r).1, su, st, en⟩] }
      else c)).map calSig = r.cals.map calSig
  rw [List.map_map]
  apply List.map_congr_left
  intro c _
  show calSig (if decide (c.cid = cid) then _ else c) = calSig c
  split <;> rfl

theorem uploadMissing_calSig (course cid : String) (missing : List ExpEntry) :
    ∀ acc : Remote × DB × Nat,
      ((missing.foldl (uploadStep course cid) acc)).1.cals.map calSig
        = acc.1.cals.map calSig := by
  induction missing with
  | nil => intro acc; rfl
  | cons x t ih =>
    intro acc
    rw [List.foldl_cons, ih]
    exact insertEvent_calSig acc.1 cid x.row.subject x.startSig x.endSig

/-- Two remote calendar lists with the same (name, id) signatures resolve a
name to the same calendar id. -/
theorem find_cid_of_calSig_eq :
    ∀ (l1 l2 : List RemoteCal), l1.map calSig = l2.map calSig → ∀ n : String,
      (l1.find? (fun c => decide (c.name = n))).map (fun c => c.cid)
        = (l2.find? (fun c => decide (c.name = n))).map (fun c => c.cid) := by
  intro l1
  induction l1 with
  | nil =>
    intro l2 h n
    cases l2 with
    | nil => rfl
    | cons b t2 => simp at h
  | cons a t ih =>
    intro l2 h n
    cases l2 with
    | nil => simp at h
    | cons b t2 =>
      rw [List.map_cons, List.map_cons] at h
      injection h with h1 h2
      have hname : a.name = b.name := congrArg Prod.fst h1
      have hcid : a.cid = b.cid := congrArg Prod.snd h1
      by_cases hn : a.name = n
      · have e1 : (a :: t).find? (fun c => decide (c.name = n)) = some a :=
          List.find?_cons_of_pos _ (by exact decide_eq_true hn)
        have e2 : (b :: t2).find? (fun c => decide (c.name = n)) = some b :=
          List.find?_cons_of_pos _ (by exact decide_eq_true (by rw [← hname]; exact hn))
        rw [e1, e2]
        simp [hcid]
      · have e1 : (a :: t).find? (fun c => decide (c.name = n)) =
            t.find? (fun c => decide (c.name = n)) :=
          List.find?_cons_of_neg _ (by simpa using hn)
        have e2 : (b :: t2).find? (fun c => decide (c.name = n)) =
            t2.find? (fun c => decide (c.name = n)) :=
          List.find?_cons_of_neg _ (by simpa using (by rw [← hname]; exact hn : ¬ b.name = n))
        rw [e1, e2]
        exact ih t2 h2 n

theorem ensure_of_find (r : Remote) (course : String) (c : RemoteCal)
    (h : r.cals.find? (fun c' => decide (c'.name = course)) = some c) :
    ensure_calendar_exists r course = (c.cid, false, r) := by
  unfold ensure_calendar_exists
  rw [h]

theorem syncFinish_of_subset (course cal_id : String) (expected : List ExpEntry)
    (expected_sigs : List Sig) (r1 : Remote) (db1 : DB)
    (h : sigsSubset expected_sigs (db_existing_sigs db1 cal_id) = true) :
    syncFinish course cal_id expected expected_sigs r1 db1 =
      ⟨r1, upsert_calendar db1 course cal_id expected_sigs.length
        (db_existing_sigs db1 cal_id).length true, 0⟩ := by
  unfold syncFinish
  rw [if_pos h]

/-- After syncFinish, every expected signature is stored for the calendar,
the persisted row for the category has complete = true, and the remote
calendars keep their (name, id) signatures. -/
theorem syncFinish_spec (course cal_id : String) (expected : List ExpEntry)
    (expected_sigs : List Sig) (r1 : Remote) (db1 : DB)
    (hd : ∀ s ∈ expected_sigs, ∃ x ∈ expected, sigOf x = s) :
    (∀ s ∈ expected_sigs,
      s ∈ db_existing_sigs (syncFinish course cal_id expected expected_sigs r1 db1).db cal_id)
    ∧ (findCalRow (syncFinish course cal_id expected expected_sigs r1 db1).db course).map
        (fun c => c.complete) = some true
    ∧ (syncFinish course cal_id expected expected_sigs r1 db1).remote.cals.map calSig
        = r1.cals.map calSig := by
  unfold syncFinish
  by_cases h1 : sigsSubset expected_sigs (db_existing_sigs db1 cal_id) = true
  · rw [if_pos h1]
    refine ⟨?_, ?_, rfl⟩
    · intro s hs
      show s ∈ db_existing_sigs (upsert_calendar db1 course cal_id _ _ true) cal_id
      rw [sigs_upsert]
      exact (sigsSubset_iff _ _).mp h1 s hs
    · show (findCalRow (upsert_calendar db1 course cal_id _ _ true) course).map _ = _
      rw [upsert_find]
      rfl
  · rw [if_neg h1]
    by_cases h2 : (expected.filter
        (fun x => !(decide (sigOf x ∈ db_existing_sigs db1 cal_id)))).isEmpty = true
    · rw [if_pos h2]
      refine ⟨?_, ?_, rfl⟩
      · intro s hs
        show s ∈ db_existing_sigs (upsert_calendar db1 course cal_id _ _ true) cal_id
        rw [sigs_upsert]
        obtain ⟨x, hx, hxs⟩ := hd s hs
        have hfil := List.isEmpty_iff.mp h2
        have hnp := List.filter_eq_nil_iff.mp hfil x hx
        have hdec : decide (sigOf x ∈ db_existing_sigs db1 cal_id) = true := by
          by_contra hne
          have hfalse : decide (sigOf x ∈ db_existing_sigs db1 cal_id) = false :=
            Bool.not_eq_true _ |>.mp hne
          apply hnp
          rw [hfalse]
          rfl
        rw [← hxs]
        exact of_decide_eq_true hdec
      · show (findCalRow (upsert_calendar db1 course cal_id _ _ true) course).map _ = _
        rw [upsert_find]
        rfl
    · rw [if_neg h2]
      have key : ∀ s ∈ expected_sigs,
          s ∈ db_existing_sigs
            ((uploadMissing course cal_id
              (expected.filter (fun x => !(decide (sigOf x ∈ db_existing_sigs db1 cal_id))))
              r1 db1)).2.1 cal_id := by
        intro s hs
        obtain ⟨x, hx, hxs⟩ := hd s hs
        by_cases hin : sigOf x ∈ db_existing_sigs db1 cal_id
        · apply sigs_upload course cal_id _ (r1, db1, 0) s
          apply Or.inl
          show s ∈ db_existing_sigs db1 cal_id
          rw [← hxs]
          exact hin
        · apply sigs_upload course cal_id _ (r1, db1, 0) s
          apply Or.inr
          refine ⟨x, List.mem_filter.mpr ⟨hx, ?_⟩, hxs⟩
          rw [decide_eq_false hin]
          rfl
      have htrue : sigsSubset expected_sigs
          (db_existing_sigs
            ((uploadMissing course cal_id
              (expected.filter (fun x => !(decide (sigOf x ∈ db_existing_sigs db1 cal_id))))
              r1 db1)).2.1 cal_id) = true :=
        (sigsSubset_iff _ _).mpr key
      refine ⟨?_, ?_, ?_⟩
      · intro s hs
        show s ∈ db_existing_sigs (upsert_calendar _ course cal_id _ _ _) cal_id
        rw [sigs_upsert]
        exact key s hs
      · show (findCalRow (upsert_calendar _ course cal_id _ _
            (sigsSubset expected_sigs _)) course).map _ = _
        rw [htrue, upsert_find]
        rfl
      · show ((uploadMissing course cal_id _ r1 db1)).1.cals.map calSig = _
        exact uploadMissing_calSig course cal_id _ (r1, db1, 0)

theorem sync_unfold (flt : Window → GEvent → Bool) (r0 : Remote) (db0 : DB)
    (course : String) (rows : List Row) :
    sync_course_with_db flt r0 db0 course rows =
      syncFinish course (ensure_calendar_exists r0 course).1 (buildExpected rows).expected
        ((buildExpected rows).expected.map sigOf).dedup
        (ensure_calendar_exists r0 course).2.2
        (refreshDB course (ensure_calendar_exists r0 course).1
          (listEventsIn (ensure_calendar_exists r0 course).2.2
            (ensure_calendar_exists r0 course).1 (flt (windowOfB (buildExpected rows))))
          db0) := rfl

/-- After one run of sync_course_with_db: every expected signature is in the
store under the resolved calendar id, the persisted category row says
complete, and the remote calendars' (name, id) signatures are those left by
calendar resolution. -/
theorem sync_run_post (flt : Window → GEvent → Bool) (r0 : Remote) (db0 : DB)
    (course : String) (rows : List Row) :
    (∀ s ∈ ((buildExpected rows).expected.map sigOf).dedup,
      s ∈ db_existing_sigs (sync_course_with_db flt r0 db0 course rows).db
          (ensure_calendar_exists r0 course).1)
    ∧ (findCalRow (sync_course_with_db flt r0 db0 course rows).db course).map
        (fun c => c.complete) = some true
    ∧ (sync_course_with_db flt r0 db0 course rows).remote.cals.map calSig
        = (ensure_calendar_exists r0 course).2.2.cals.map calSig := by
  have hd : ∀ s ∈ ((buildExpected rows).expected.map sigOf).dedup,
      ∃ x ∈ (buildExpected rows).expected, sigOf x = s := by
    intro s hs
    rw [List.mem_dedup] at hs
    exact List.mem_map.mp hs
  rw [sync_unfold flt r0 db0 course rows]
  exact syncFinish_spec course (ensure_calendar_exists r0 course).1
    (buildExpected rows).expected ((buildExpected rows).expected.map sigOf).dedup
    (ensure_calendar_exists r0 course).2.2
    (refreshDB course (ensure_calendar_exists r0 course).1
      (listEventsIn (ensure_calendar_exists r0 course).2.2
        (ensure_calendar_exists r0 course).1 (flt (windowOfB (buildExpected rows))))
      db0) hd

/-- A second resolution after a full run finds the same calendar id without
creating anything, and leaves the remote state untouched. -/
theorem ensure_stable (flt : Window → GEvent → Bool) (r0 : Remote) (db0 : DB)
    (course : String) (rows : List Row) :
    ensure_calendar_exists (sync_course_with_db flt r0 db0 course rows).remote course
      = ((ensure_calendar_exists r0 course).1, false,
         (sync_course_with_db flt r0 db0 course rows).remote) := by
  obtain ⟨c1, hc1find, hc1cid⟩ := ensure_find_self r0 course
  have hcal1 := (sync_run_post flt r0 db0 course rows).2.2
  have hfind2 := find_cid_of_calSig_eq _ _ hcal1 course
  rw [hc1find] at hfind2
  cases hf2 : (sync_course_with_db flt r0 db0 course rows).remote.cals.find?
      (fun c' => decide (c'.name = course)) with
  | none =>
    rw [hf2] at hfind2
    simp at hfind2
  | some c2 =>
    rw [hf2] at hfind2
    have hc2 : c2.cid = c1.cid := by simpa using hfind2
    rw [ensure_of_find _ _ _ hf2, hc2, hc1cid]

/-- Claim C1: running sync_course_with_db a second time, on the remote and
store state the first run left and with the same desired rows, inserts zero
events, leaves the remote state untouched, and the persisted complete flag
for the category is true after the first run and still true after the
second. -/
theorem sync_course_idempotent (flt : Window → GEvent → Bool) (r0 : Remote) (db0 : DB)
    (course : String) (rows : List Row) :
    (sync_course_with_db flt (sync_course_with_db flt r0 db0 course rows).remote
      (sync_course_with_db flt r0 db0 course rows).db course rows).inserted = 0
    ∧ (sync_course_with_db flt (sync_course_with_db flt r0 db0 course rows).remote
      (sync_course_with_db flt r0 db0 course rows).db course rows).remote
        = (sync_course_with_db flt r0 db0 course rows).remote
    ∧ (findCalRow (sync_course_with_db flt r0 db0 course rows).db course).map
        (fun c => c.complete) = some true
    ∧ (findCalRow (sync_course_with_db flt (sync_course_with_db flt r0 db0 course rows).remote
        (sync_course_with_db flt r0 db0 course rows).db course rows).db course).map
        (fun c => c.complete) = some true := by
  have hpost := sync_run_post flt r0 db0 course rows
  have hens2 := ensure_stable flt r0 db0 course rows
  have hstep : sync_course_with_db flt (sync_course_with_db flt r0 db0 course rows).remote
      (sync_course_with_db flt r0 db0 course rows).db course rows
      = syncFinish course (ensure_calendar_exists r0 course).1 (buildExpected rows).expected
          ((buildExpected rows).expected.map sigOf).dedup
          (sync_course_with_db flt r0 db0 course rows).remote
          (refreshDB course (ensure_calendar_exists r0 course).1
            (listEventsIn (sync_course_with_db flt r0 db0 course rows).remote
              (ensure_calendar_exists r0 course).1 (flt (windowOfB (buildExpected rows))))
            (sync_course_with_db flt r0 db0 course rows).db) := by
    rw [sync_unfold flt (sync_course_with_db flt r0 db0 course rows).remote
      (sync_course_with_db flt r0 db0 course rows).db course rows, hens2]
  have hsub : sigsSubset ((buildExpected rows).expected.map sigOf).dedup
      (db_existing_sigs
        (refreshDB course (ensure_calendar_exists r0 course).1
          (listEventsIn (sync_course_with_db flt r0 db0 course rows).remote
            (ensure_calendar_exists r0 course).1 (flt (windowOfB (buildExpected rows))))
          (sync_course_with_db flt r0 db0 course rows).db)
        (ensure_calendar_exists r0 course).1) = true := by
    apply (sigsSubset_iff _ _).mpr
    intro s hs
    exact sigs_refresh_mono course _ _ _ _ s (hpost.1 s hs)
  have hfin := syncFinish_of_subset course (ensure_calendar_exists r0 course).1
    (buildExpected rows).expected ((buildExpected rows).expected.map sigOf).dedup
    (sync_course_with_db flt r0 db0 course rows).remote
    (refreshDB course (ensure_calendar_exists r0 course).1
      (listEventsIn (sync_course_with_db flt r0 db0 course rows).remote
        (ensure_calendar_exists r0 course).1 (flt (windowOfB (buildExpected rows))))
      (sync_course_with_db flt r0 db0 course rows).db) hsub
  refine ⟨?_, ?_, hpost.2.1, ?_⟩
  · rw [hstep, hfin]
  · rw [hstep, hfin]
  · rw [hstep, hfin]
    show (findCalRow (upsert_calendar _ course _ _ _ true) course).map _ = some true
    rw [upsert_find]
    rfl
